import Mathlib

/-!
Verification development for the prompt-queue service in `src/main.py`.

The service manages rows of a remote spreadsheet-like table.  We embed the
pure row/column computations of the Python source shallowly:

* a sheet row is a `List String` of cell values;
* the header row gives a name → zero-based column position mapping
  (`idxMap`, mirroring Python's `{h: i for i, h in enumerate(headers)}`,
  where a later duplicate header wins);
* per-handler logic (`get_next_prompt`, `mark_prompt_locked`,
  `mark_prompt_used`, `clear_prompt_mark`, `insert_prompts`) is translated
  function by function;
* the rate limiter is modelled over rational time with explicit fuel for
  its recursive retry;
* the acquire/remote-call/cache-invalidation ordering of each handler is
  modelled as an explicit event trace.
-/

/-! ### Python string primitives, modelled over `List Char`

Core `String` functions (`trim`, `toLower`, `split`, ...) are implemented
with `Substring` byte loops; we use list-based equivalents of the Python
operations the source relies on. -/

/-- Python `str.strip()`: drop surrounding whitespace. -/
def pyStrip (s : String) : String :=
  String.mk (((s.toList.dropWhile Char.isWhitespace).reverse.dropWhile
    Char.isWhitespace).reverse)

/-- Python `str.lower()` (ASCII case folding as used by the source). -/
def pyLower (s : String) : String :=
  String.mk (s.toList.map Char.toLower)

/-- Python `str.upper()`. -/
def pyUpper (s : String) : String :=
  String.mk (s.toList.map Char.toUpper)

/-- Python `s.startswith(pre)`. -/
def pyStartsWith (s pre : String) : Bool :=
  pre.toList.isPrefixOf s.toList

/-- Python slicing `s[:n]` (by code points). -/
def pyTake (n : Nat) (s : String) : String :=
  String.mk (s.toList.take n)

/-- Helper for Python `str.split()`: accumulate the current token. -/
def wsSplitAux : List Char → List Char → List String
  | [], acc => if acc = [] then [] else [String.mk acc.reverse]
  | c :: cs, acc =>
    if c.isWhitespace then
      if acc = [] then wsSplitAux cs []
      else String.mk acc.reverse :: wsSplitAux cs []
    else wsSplitAux cs (c :: acc)

/-- Python `str.split()` with no argument: split on whitespace runs,
dropping empty pieces. -/
def pySplitWs (s : String) : List String :=
  wsSplitAux s.toList []

/-- Digits-only parse used to model Python `int(...)`. -/
def pyDigits? (cs : List Char) : Option Nat :=
  if cs ≠ [] ∧ cs.all Char.isDigit then
    some (cs.foldl (fun n c => n * 10 + (c.toNat - 48)) 0)
  else none

/-- Python `int(s)` on a stripped string, as `Option`: `none` models the
`ValueError` raised on non-integer input. -/
def pyInt? (s : String) : Option Int :=
  match s.toList with
  | '-' :: rest => (pyDigits? rest).map (fun n => -(n : Int))
  | '+' :: rest => (pyDigits? rest).map (fun n => (n : Int))
  | cs => (pyDigits? cs).map (fun n => (n : Int))

/-! ### Header / column model -/

/-- `idx_map = {h: i for i, h in enumerate(headers)}` from `main.py`.
A Python dict comprehension keeps the LAST index for a duplicated header,
which this recursion mirrors by preferring the tail's result. -/
def idxMap : List String → String → Option Nat
  | [], _ => none
  | h :: t, c =>
    match idxMap t c with
    | some i => some (i + 1)
    | none => if h = c then some 0 else none

/-- `cell(row, col)` from `get_next_prompt` (src/main.py lines 382-387):
missing column or out-of-range index yields `""`, otherwise the stripped
cell value. -/
def cellv (hs : List String) (row : List String) (c : String) : String :=
  match idxMap hs c with
  | none => ""
  | some i => if h : i < row.length then pyStrip (row.get ⟨i, h⟩) else ""

/-- The `for i, row in enumerate(data_rows): if cell(row,"used") == "": first_idx = i; break`
loop (src/main.py lines 390-394). -/
def findFirst (p : α → Bool) : List α → Option Nat
  | [] => none
  | x :: xs => if p x then some 0 else (findFirst p xs).map (· + 1)

/-- Predicate used by the contiguous-block collection loop
(src/main.py lines 403-412): the loop breaks at the first row whose
`used` is non-empty or whose `topic` differs from the target. -/
def blockPred (hs : List String) (target : String) (r : List String) : Bool :=
  cellv hs r "used" == "" && cellv hs r "topic" == target

/-- Index of the first data row with empty `used` (src/main.py lines 390-394). -/
def firstUnused (hs : List String) (rows : List (List String)) : Option Nat :=
  findFirst (fun r => cellv hs r "used" == "") rows

/-- The contiguous block returned by `get_next_prompt`
(src/main.py lines 389-415): starting at the first row with empty `used`,
take rows while `used` stays empty and `topic` equals the first row's topic. -/
def nextBatch (hs : List String) (rows : List (List String)) : List (List String) :=
  match firstUnused hs rows with
  | none => []
  | some k =>
    let target := cellv hs (rows.getD k []) "topic"
    (rows.drop k).takeWhile (blockPred hs target)

/-! ### Keyword-column selection and per-row derivation (`get_next_prompt`) -/

/-- `isinstance(h, str) and h.strip().lower().startswith("keyword")`
(src/main.py line 418). -/
def keywordPred (h : String) : Bool :=
  pyStartsWith (pyLower (pyStrip h)) "keyword"

/-- Sort key `idx_map.get(h, 10**9)` (src/main.py line 419). -/
def sortKey (hs : List String) (h : String) : Nat :=
  (idxMap hs h).getD (10 ^ 9)

/-- Stable insertion used to model Python's stable `list.sort(key=...)`. -/
def insertByKey (key : String → Nat) (x : String) : List String → List String
  | [] => [x]
  | y :: ys => if key x ≤ key y then x :: y :: ys else y :: insertByKey key x ys

/-- Stable sort by key, modelling Python's `list.sort(key=...)`. -/
def sortByKey (key : String → Nat) : List String → List String
  | [] => []
  | x :: xs => insertByKey key x (sortByKey key xs)

/-- `keyword_cols` (src/main.py lines 418-419): headers starting with
`keyword` (case-insensitive after strip), sorted by column position. -/
def keywordCols (hs : List String) : List String :=
  sortByKey (sortKey hs) (hs.filter keywordPred)

/-- Python's `a or b` on strings: `b` when `a` is empty. -/
def pyOr (a b : String) : String :=
  if a = "" then b else a

/-- `title = cell(row,"title") or (topic or prompt)[:70].strip()`
(src/main.py line 428). -/
def deriveTitle (hs r : List String) : String :=
  pyOr (cellv hs r "title")
    (pyStrip (pyTake 70 (pyOr (cellv hs r "topic") (cellv hs r "prompt"))))

/-- The punctuation characters stripped from prompt tokens,
`,.;:()[]{}'"` (src/main.py line 440). -/
def punctChars : List Char :=
  [',', '.', ';', ':', '(', ')', '[', ']', '\x7b', '\x7d', '\'', '\"']

/-- Strip the given characters from both ends (Python `str.strip(chars)`). -/
def stripCharsOf (bad : List Char) (s : String) : String :=
  String.mk (((s.toList.dropWhile (fun c => bad.contains c)).reverse.dropWhile
    (fun c => bad.contains c)).reverse)

/-- `token.strip(",.;:()[]{}'\"").lower()` (src/main.py line 440). -/
def normTok (tok : String) : String :=
  pyLower (stripCharsOf punctChars tok)

/-- Keyword-column collection loop with the `seen` set (src/main.py
lines 431-435); since `seen` always holds exactly the elements of `kws`,
membership is tested against the list. -/
def collectColKws (hs r : List String) : List String :=
  (keywordCols hs).foldl
    (fun kws kc =>
      let v := cellv hs r kc
      if v ≠ "" ∧ v ∉ kws then kws ++ [v] else kws) []

/-- The prompt-token extension loop (src/main.py lines 438-444): append
normalised tokens not already present, breaking once 10 keywords are
reached. -/
def fillFromPrompt (kws : List String) : List String → List String
  | [] => kws
  | tok :: rest =>
    let t := normTok tok
    if t ≠ "" ∧ t ∉ kws then
      let kws' := kws ++ [t]
      if 10 ≤ kws'.length then kws' else fillFromPrompt kws' rest
    else fillFromPrompt kws rest

/-- Full keyword derivation for one batch row (src/main.py lines 430-444
and the `kws[:10]` truncation at line 451). -/
def deriveKeywords (hs r : List String) : List String :=
  let kws := collectColKws hs r
  let prompt := cellv hs r "prompt"
  let kws2 :=
    if kws.length < 10 ∧ prompt ≠ "" then fillFromPrompt kws (pySplitWs prompt)
    else kws
  kws2.take 10

/-- Modelled from the spec's wording, for the refinement comparison of C2:
the stored title when non-empty, otherwise the first 70 characters of the
topic (or of the prompt when the topic is empty), trimmed. -/
def specTitle (hs r : List String) : String :=
  if cellv hs r "title" ≠ "" then cellv hs r "title"
  else pyStrip (pyTake 70
    (if cellv hs r "topic" ≠ "" then cellv hs r "topic" else cellv hs r "prompt"))

/-- Modelled from the spec's wording: the keyword columns in header column
order (no sorting step). -/
def specKeywordCols (hs : List String) : List String :=
  hs.filter keywordPred

/-- Modelled from the spec's wording, for the refinement comparison of C2:
non-empty keyword-column values in header order, deduplicated preserving
first occurrence, extended from the prompt tokens only when fewer than 10
were found, truncated to 10. -/
def specKeywords (hs r : List String) : List String :=
  let base :=
    (specKeywordCols hs).foldl
      (fun kws kc =>
        let v := cellv hs r kc
        if v ≠ "" ∧ v ∉ kws then kws ++ [v] else kws) []
  let out :=
    if base.length < 10 then fillFromPrompt base (pySplitWs (cellv hs r "prompt"))
    else base
  out.take 10

/-! ### RateLimiter (src/main.py lines 63-80)

`acquire()` is modelled over rational time.  The Python recursion
`await asyncio.sleep(wait_time); return await self.acquire()` re-reads the
clock after sleeping; we model the retry as running at `now + wait`.  Fuel
makes the recursion structural; `none` models non-termination of the model,
never an admission. -/

/-- `self.requests = [t for t in self.requests if now - t < self.window]`
(src/main.py line 72). -/
def prune (w now : ℚ) (reqs : List ℚ) : List ℚ :=
  reqs.filter (fun t => decide (now - t < w))

/-- `wait_time = self.window - (now - self.requests[0]) + 1`
(src/main.py line 75), computed on the pruned log. -/
def waitTime (w now : ℚ) (pruned : List ℚ) : ℚ :=
  w - (now - pruned.headD 0) + 1

/-- `RateLimiter.acquire` (src/main.py lines 69-80): prune, then either
retry after the computed wait at the advanced clock, or append `now` and
admit.  Returns the new request log and the admission time. -/
def acquire (maxReq : Nat) (w : ℚ) : Nat → List ℚ → ℚ → Option (List ℚ × ℚ)
  | 0, _, _ => none
  | fuel + 1, reqs, now =>
    let pruned := prune w now reqs
    if maxReq ≤ pruned.length then
      acquire maxReq w fuel pruned (now + waitTime w now pruned)
    else
      some (pruned ++ [now], now)

/-- Number of admitted timestamps inside the trailing `w`-second interval
ending at `s`. -/
def windowCount (w s : ℚ) (reqs : List ℚ) : Nat :=
  (reqs.filter (fun t => decide (s - w < t ∧ t ≤ s))).length

/-! ### Column letters and the lock path -/

/-- The `while n > 0: n, r = divmod(n - 1, 26); letters = chr(65 + r) + letters`
loop of `col_idx_to_a1` (src/main.py lines 345-352).  The first argument is
fuel: the loop divides `n` by 26 each step, so fuel equal to the initial
`n` always suffices. -/
def a1Loop : Nat → Nat → String → String
  | 0, _, acc => acc
  | _ + 1, 0, acc => acc
  | fuel + 1, m + 1, acc =>
    a1Loop fuel (m / 26) (String.mk [Char.ofNat (65 + m % 26)] ++ acc)

/-- `col_idx_to_a1` (src/main.py lines 345-352): zero-based column index to
spreadsheet column letters, bijective base-26. -/
def col_idx_to_a1 (i : Nat) : String :=
  a1Loop (i + 1) (i + 1) ""

/-- The sheet tab name used in every A1 range (src/main.py line 31). -/
def SHEET_NAME : String := "prompts"

/-- The per-row dict built by `get_unused_rows_by_topic`
(src/main.py lines 192-199). -/
structure RowData where
  row_idx : Nat
  rowId : Int
  topic : String
  prompt : String
  title : String
  raw_row : List String
deriving Repr, DecidableEq

/-- `row_data.get("used")` as evaluated in `mark_prompt_locked`
(src/main.py line 500): the dict built by `get_unused_rows_by_topic` has
keys `row_idx`, `rowId`, `topic`, `prompt`, `title`, `raw_row` only, so
the lookup always yields Python `None`. -/
def RowData.usedField (_ : RowData) : Option String := none

/-- Append a row to its topic group, preserving first-seen topic order
(the Python dict `unused_by_topic`, src/main.py lines 201-203). -/
def addToTopic (acc : List (String × List RowData)) (t : String) (rd : RowData) :
    List (String × List RowData) :=
  match acc with
  | [] => [(t, [rd])]
  | (t', rds) :: rest =>
    if t' = t then (t', rds ++ [rd]) :: rest
    else (t', rds) :: addToTopic rest t rd

/-- `get_unused_rows_by_topic` row scan (src/main.py lines 179-203): skip
empty rows, rows whose `used` lower-cases to `"yes"`, and rows without a
topic; `int(get_cell(row,'rowId') or 0)` may raise `ValueError` (`none`). -/
def unusedByTopic (hs : List String) (dataRows : List (List String)) :
    Option (List (String × List RowData)) :=
  (dataRows.enum).foldlM
    (fun acc p =>
      let row := p.2
      if row = [] then some acc
      else if pyLower (cellv hs row "used") = "yes" then some acc
      else
        let topic := cellv hs row "topic"
        if topic = "" then some acc
        else
          let ridS := cellv hs row "rowId"
          match (if ridS = "" then some 0 else pyInt? ridS) with
          | none => none
          | some rid =>
            some (addToTopic acc topic
              ⟨p.1 + 2, rid, topic, cellv hs row "prompt", cellv hs row "title", row⟩))
    []

/-- One entry of the `data` list passed to `values().batchUpdate`. -/
structure A1Update where
  range : String
  values : List (List String)
deriving Repr, DecidableEq

/-- The update-building loop of `mark_prompt_locked`
(src/main.py lines 495-515): for each row of the target topic's unused
group, skip it when `(row_data.get("used") or "").strip().upper()` equals
`"LOCKED"`, otherwise emit one batched range write. -/
def lockUpdates (hs : List String) (topicRows : List RowData)
    (log_id now : String) : List A1Update :=
  let used_col := col_idx_to_a1 ((idxMap hs "used").getD 0)
  let log_col := col_idx_to_a1 ((idxMap hs "log_id").getD 0)
  topicRows.filterMap (fun rd =>
    let current_used := pyUpper (pyStrip ((RowData.usedField rd).getD ""))
    if current_used = "LOCKED" then none
    else
      match (idxMap hs "timestamp").map col_idx_to_a1 with
      | some time_col =>
        some ⟨SHEET_NAME ++ "!" ++ used_col ++ toString rd.row_idx ++ ":" ++
                time_col ++ toString rd.row_idx,
              [["LOCKED", log_id, now]]⟩
      | none =>
        some ⟨SHEET_NAME ++ "!" ++ used_col ++ toString rd.row_idx ++ ":" ++
                log_col ++ toString rd.row_idx,
              [["LOCKED", log_id]]⟩)

/-- Result of a handler: the returned value or an `HTTPException`. -/
inductive HResult (α : Type) where
  | ok (val : α)
  | httpError (status : Nat) (detail : String)
deriving Repr, DecidableEq

/-- HTTP status carried by an `HResult`, if it is an error. -/
def HResult.status {α : Type} : HResult α → Option Nat
  | .ok _ => none
  | .httpError s _ => some s

/-- The required-column validation of `get_sheet_metadata`
(src/main.py lines 124-130). -/
def metaRequiredOk (hs : List String) : Bool :=
  ["rowId", "topic", "prompt", "used"].all (fun c => (idxMap hs c).isSome)

/-- `mark_prompt_locked` body before the handler's catch-all
(src/main.py lines 462-526), returning the batched update list it would
send.  Metadata validation runs first (inside `get_unused_rows_by_topic`'s
call to `get_sheet_metadata`); an unparsable `rowId` cell raises inside
`get_unused_rows_by_topic` (HTTP 500); a rowId absent from every unused
group raises `HTTPException(404)` (line 478); missing `used`/`log_id`
columns raise 500 (lines 484-487). -/
def lockPlanInner (hs : List String) (dataRows : List (List String))
    (rowId : Int) (log_id now : String) : HResult (List A1Update) :=
  if metaRequiredOk hs then
    match unusedByTopic hs dataRows with
    | none => .httpError 500 "Failed to get unused rows"
    | some unused =>
      match unused.find? (fun p => p.2.any (fun rd => rd.rowId == rowId)) with
      | none => .httpError 404 "rowId not found in unused rows"
      | some (_, topicRows) =>
        if (idxMap hs "used").isSome && (idxMap hs "log_id").isSome then
          .ok (lockUpdates hs topicRows log_id now)
        else .httpError 500 "Missing columns in header"
  else .httpError 500 "Missing required columns"

/-- `mark_prompt_locked` including its `except Exception` catch-all
(src/main.py lines 528-530): every internal exception — the
`HTTPException(404)` included — is re-raised as HTTP 500 with
`str(e)` as detail. -/
def lockPlan (hs : List String) (dataRows : List (List String))
    (rowId : Int) (log_id now : String) : HResult (List A1Update) :=
  match lockPlanInner hs dataRows rowId log_id now with
  | .ok v => .ok v
  | .httpError s d => .httpError 500 (toString s ++ ": " ++ d)

/-! ### Acquire / remote-call / cache-invalidation traces (C6, C7)

Each handler's sequence of `rate_limiter.acquire()` calls, remote Sheets
API calls, and `sheets_cache.invalidate(...)` calls is modelled as an
event list, parametrised by cache state and by whether the update list is
non-empty. -/

/-- Kinds of remote Sheets API calls made by `main.py`. -/
inductive RemoteKind where
  | headerRead
  | propsRead
  | rangeRead
  | fullRead
  | rowIdRead
  | batchUpdate
  | append
deriving Repr, DecidableEq

/-- One event: a rate-limiter acquire, a remote call, or a cache
invalidation (with its optional pattern). -/
inductive Ev where
  | acq
  | remote (k : RemoteKind)
  | inv (pattern : Option String)
deriving Repr, DecidableEq

/-- `batchUpdate` and `append` are the remote writes. -/
def RemoteKind.isWrite : RemoteKind → Bool
  | .batchUpdate => true
  | .append => true
  | _ => false

/-- Is this event a remote call? -/
def Ev.isRemote : Ev → Bool
  | .remote _ => true
  | _ => false

/-- Is this event an acquire? -/
def Ev.isAcq : Ev → Bool
  | .acq => true
  | _ => false

/-- Is this event a cache invalidation? -/
def Ev.isInv : Ev → Bool
  | .inv _ => true
  | _ => false

/-- Is this event a remote write? -/
def Ev.isRemoteWrite : Ev → Bool
  | .remote k => k.isWrite
  | _ => false

/-- `get_sheet_metadata` (src/main.py lines 85-137): nothing on a cache
hit; on a miss, one acquire (line 92) followed by TWO remote calls — the
header-row read (line 97) and the sheet-properties read (line 111). -/
def getSheetMetadataTrace (metaCached : Bool) : List Ev :=
  if metaCached then []
  else [.acq, .remote .headerRead, .remote .propsRead]

/-- `get_unused_rows_by_topic` (src/main.py lines 139-207): nothing on a
cache hit; otherwise the metadata trace, then one acquire (line 149) and
the range read (line 161). -/
def getUnusedRowsTrace (unusedCached metaCached : Bool) : List Ev :=
  if unusedCached then []
  else getSheetMetadataTrace metaCached ++ [.acq, .remote .rangeRead]

/-- `get_next_prompt` (src/main.py lines 355-458): metadata fetch, one
acquire (line 369), full-sheet read (line 370). -/
def getNextPromptTrace (metaCached : Bool) : List Ev :=
  getSheetMetadataTrace metaCached ++ [.acq, .remote .fullRead]

/-- `mark_prompt_locked` (src/main.py lines 462-526): pattern invalidation
of the unused-rows key (line 466, so that cache entry is certainly cold),
the unused-rows fetch, the (now cached) metadata fetch at line 480, and —
when the update list is non-empty — one acquire (line 518), the batch
update (line 520) and a full invalidation (line 525). -/
def lockTrace (metaCached hasUpdates : Bool) : List Ev :=
  [.inv (some "unused_rows")] ++ getUnusedRowsTrace false metaCached ++
  getSheetMetadataTrace true ++
  (if hasUpdates then [.acq, .remote .batchUpdate, .inv none] else [])

/-- `clear_prompt_mark` (src/main.py lines 532-605): full invalidation
(line 536), acquire (line 538), metadata fetch (guaranteed cold), range
read (line 549, no acquire of its own), and — when updates exist — an
acquire (line 596), the batch update (line 598) and a full invalidation
(line 601). -/
def clearTrace (hasUpdates : Bool) : List Ev :=
  [.inv none, .acq] ++ getSheetMetadataTrace false ++ [.remote .rangeRead] ++
  (if hasUpdates then [.acq, .remote .batchUpdate, .inv none] else [])

/-- `mark_prompt_used` (src/main.py lines 608-674): full invalidation
(line 611), acquire (line 612), metadata fetch (guaranteed cold), rowId
column read (line 634, no acquire of its own), and — when updates exist —
an acquire (line 659), the batch update (line 661) and a full
invalidation (line 666). -/
def markUsedTrace (hasUpdates : Bool) : List Ev :=
  [.inv none, .acq] ++ getSheetMetadataTrace false ++ [.remote .rowIdRead] ++
  (if hasUpdates then [.acq, .remote .batchUpdate, .inv none] else [])

/-- `insert_prompts` (src/main.py lines 677-792): full invalidation
(line 681), acquire (line 682), full-sheet read (line 685), and — when
there are rows to append — an acquire (line 761), the append (line 762)
and a full invalidation (line 769). -/
def insertTrace (hasAppend : Bool) : List Ev :=
  [.inv none, .acq, .remote .fullRead] ++
  (if hasAppend then [.acq, .remote .append, .inv none] else [])

/-- The property claimed by C6 for one operation trace: remote calls and
acquires are in one-to-one correspondence, and every remote call is
immediately preceded by an acquire. -/
abbrev oneAcquirePerRemote (tr : List Ev) : Prop :=
  (tr.filter Ev.isRemote).length = (tr.filter Ev.isAcq).length ∧
  ∀ i : Fin tr.length, (tr.get i).isRemote = true →
    0 < i.val ∧ tr.getD (i.val - 1) (.inv none) = .acq

/-- Weaker property: every remote call has some acquire earlier in the
same operation trace. -/
abbrev acquireSomewhereBefore (tr : List Ev) : Prop :=
  ∀ i : Fin tr.length, (tr.get i).isRemote = true →
    ∃ j : Fin tr.length, j.val < i.val ∧ tr.get j = .acq

/-- Every remote write is immediately preceded by its own acquire. -/
abbrev writeImmediatelyAfterAcquire (tr : List Ev) : Prop :=
  ∀ i : Fin tr.length, (tr.get i).isRemoteWrite = true →
    0 < i.val ∧ tr.getD (i.val - 1) (.inv none) = .acq

/-- No invalidation event occurs after a remote write (the C7 property). -/
abbrev noInvalidationAfterWrite (tr : List Ev) : Prop :=
  ∀ i j : Fin tr.length, i.val < j.val →
    (tr.get i).isRemoteWrite = true → (tr.get j).isInv = false

/-- There is an invalidation before the first remote call. -/
abbrev invalidationBeforeRemote (tr : List Ev) : Prop :=
  ∀ i : Fin tr.length, (tr.get i).isRemote = true →
    ∃ j : Fin tr.length, j.val < i.val ∧ (tr.get j).isInv = true

/-- Every remote write is followed by an invalidation. -/
abbrev invalidationAfterWrite (tr : List Ev) : Prop :=
  ∀ i : Fin tr.length, (tr.get i).isRemoteWrite = true →
    ∃ j : Fin tr.length, i.val < j.val ∧ (tr.get j).isInv = true

/-! ### Clear / markUsed cell addressing (C8, C10) -/

/-- `chr(ord('A') + idx)` as used by `clear_prompt_mark` for its update
cell addresses (src/main.py line 589): a single-character encoding with no
multi-letter support beyond index 25. -/
def clearColLetter (i : Nat) : String :=
  String.mk [Char.ofNat (65 + i)]

/-- The update-building nested loop of `clear_prompt_mark`
(src/main.py lines 574-593): for each data row (physical row `p.1 + 2`)
whose raw `topic` equals the target and whose stripped upper-cased `used`
is one of `""`, `"LOCKED"`, `"FAILED"`, emit one single-cell blanking
write per present column among `used`, `log_id`, `timestamp`. -/
def clearUpdates (hs : List String) (values : List (List String))
    (targetTopic : String) : List A1Update :=
  let topicIdx := (idxMap hs "topic").getD 0
  let usedIdx := (idxMap hs "used").getD 0
  ((values.enum).map (fun p =>
    let i := p.1 + 2
    let row := p.2
    if row.length ≤ topicIdx then []
    else
      let topic := row.getD topicIdx ""
      let used := pyUpper (pyStrip
        (if usedIdx < row.length then row.getD usedIdx "" else ""))
      if topic = targetTopic ∧ (used = "" ∨ used = "LOCKED" ∨ used = "FAILED") then
        ["used", "log_id", "timestamp"].filterMap (fun col =>
          (idxMap hs col).map (fun ci =>
            (⟨SHEET_NAME ++ "!" ++ clearColLetter ci ++ toString i,
              [[""]]⟩ : A1Update)))
      else [])).join

/-- The update-building loop of `mark_prompt_used`
(src/main.py lines 642-656): scan the fetched single-column rowId values,
skip empty rows and unparsable ids, and emit one `used..timestamp` range
write `[["yes", log_id, now]]` per row whose id is in the request. -/
def markUsedUpdates (hs : List String) (rowIdValues : List (List String))
    (rowIds : List Int) (log_id now : String) : List A1Update :=
  let used_col := col_idx_to_a1 ((idxMap hs "used").getD 0)
  let time_col := col_idx_to_a1 ((idxMap hs "timestamp").getD 0)
  (rowIdValues.enum).filterMap (fun p =>
    match p.2 with
    | [] => none
    | v :: _ =>
      match pyInt? v with
      | none => none
      | some rid =>
        if rid ∈ rowIds then
          some ⟨SHEET_NAME ++ "!" ++ used_col ++ toString (p.1 + 2) ++ ":" ++
                  time_col ++ toString (p.1 + 2),
                [["yes", log_id, now]]⟩
        else none)

/-- Modelled from the spec: the remote tabular store (external to this
repository, spec §1/§6) applies a range write by placing the supplied
values cell by cell from the range's first column; range cells beyond the
supplied values are left unchanged. -/
def applyRowRangeWrite (startCol : Nat) (vals : List String)
    (row : List String) : List String :=
  (row.enum).map (fun p =>
    if startCol ≤ p.1 ∧ p.1 < startCol + vals.length then
      vals.getD (p.1 - startCol) ""
    else p.2)

/-! ### `insert_prompts` row construction (C9) -/

/-- The `InsertRow` payload model (src/main.py lines 245-258): pydantic
fields with `keyword1`..`keyword10` optional, defaulting to `""`. -/
structure InsertRow where
  topic : String
  prompt : String
  title : String
  keyword1 : String := ""
  keyword2 : String := ""
  keyword3 : String := ""
  keyword4 : String := ""
  keyword5 : String := ""
  keyword6 : String := ""
  keyword7 : String := ""
  keyword8 : String := ""
  keyword9 : String := ""
  keyword10 : String := ""
deriving Repr, DecidableEq

/-- `extract_keywords(item)` (src/main.py lines 720-725): the ten payload
keyword values in order, each `(val or "").strip()`; always length 10. -/
def payloadKws (item : InsertRow) : List String :=
  [pyStrip item.keyword1, pyStrip item.keyword2, pyStrip item.keyword3,
   pyStrip item.keyword4, pyStrip item.keyword5, pyStrip item.keyword6,
   pyStrip item.keyword7, pyStrip item.keyword8, pyStrip item.keyword9,
   pyStrip item.keyword10]

/-- Sequential `row_vals[pos] = v` assignments. -/
def setCells (r : List String) : List (Nat × String) → List String
  | [] => r
  | (pos, v) :: rest => setCells (r.set pos v) rest

/-- The required-column validation of `insert_prompts`
(src/main.py lines 699-702). -/
def requiredInsertOk (hs : List String) : Bool :=
  ["rowId", "topic", "prompt", "title", "used", "log_id", "timestamp"].all
    (fun c => (idxMap hs c).isSome)

/-- The row-vector construction of `insert_prompts` for one payload row
(src/main.py lines 735-755): a full-width blank row; `rowId`, `topic`,
`prompt`, `title` at their resolved positions; the i-th payload keyword
assigned to the i-th keyword-prefixed header column (in column order,
`break` once the ten payload keywords are exhausted); `used`, `log_id`,
`timestamp` blanked. -/
def buildRowVals (hs : List String) (item : InsertRow) (next_id : Int) :
    List String :=
  let idxOf := fun c => (idxMap hs c).getD 0
  let r0 := List.replicate hs.length ""
  let r1 := r0.set (idxOf "rowId") (toString next_id)
  let r2 := if (idxMap hs "topic").isSome then r1.set (idxOf "topic") item.topic
            else r1
  let r3 := if (idxMap hs "prompt").isSome then
              r2.set (idxOf "prompt") item.prompt
            else r2
  let r4 := if (idxMap hs "title").isSome then r3.set (idxOf "title") item.title
            else r3
  let pk := payloadKws item
  let r5 := setCells r4 (((keywordCols hs).take 10).enum.map
    (fun p => (idxOf p.2, pk.getD p.1 "")))
  let r6 := r5.set (idxOf "used") ""
  let r7 := r6.set (idxOf "log_id") ""
  r7.set (idxOf "timestamp") ""

section ListLemmas

variable {α : Type _} {p : α → Bool}

theorem findFirst_eq_none_iff {l : List α} :
    findFirst p l = none ↔ ∀ x ∈ l, ¬ p x := by
  induction l with
  | nil => simp [findFirst]
  | cons a t ih =>
    by_cases h : p a
    · simp [findFirst, h]
    · simp only [findFirst, if_neg h, List.mem_cons]
      constructor
      · intro hm
        rcases Option.map_eq_none'.mp hm with hm'
        intro x hx
        rcases hx with rfl | hx
        · exact fun hc => h hc
        · exact (ih.mp hm') x hx
      · intro hall
        have : findFirst p t = none := ih.mpr (fun x hx => hall x (Or.inr hx))
        simp [this]

theorem findFirst_eq_some {l : List α} {k : Nat} (h : findFirst p l = some k) :
    (∃ hk : k < l.length, p (l.get ⟨k, hk⟩)) ∧
      ∀ j x, j < k → l.get? j = some x → ¬ p x := by
  induction l generalizing k with
  | nil => simp [findFirst] at h
  | cons a t ih =>
    by_cases ha : p a
    · simp only [findFirst, if_pos ha] at h
      cases h
      refine ⟨⟨by simp, by simpa⟩, ?_⟩
      intro j x hj
      omega
    · simp only [findFirst, if_neg ha] at h
      rcases Option.map_eq_some'.mp h with ⟨k', hk', rfl⟩
      rcases ih hk' with ⟨⟨hlt, hp⟩, hmin⟩
      refine ⟨⟨by simpa using Nat.succ_lt_succ hlt, by simpa using hp⟩, ?_⟩
      intro j x hj hget
      cases j with
      | zero =>
        simp only [List.get?] at hget
        cases hget
        exact fun hc => ha hc
      | succ j' =>
        exact hmin j' x (Nat.lt_of_succ_lt_succ hj) (by simpa using hget)

theorem mem_takeWhile_pred {l : List α} {x : α} (h : x ∈ l.takeWhile p) : p x := by
  induction l with
  | nil => simp [List.takeWhile] at h
  | cons a t ih =>
    by_cases ha : p a
    · rw [List.takeWhile_cons_of_pos ha] at h
      rcases List.mem_cons.mp h with rfl | h'
      · exact ha
      · exact ih h'
    · rw [List.takeWhile_cons_of_neg ha] at h
      simp at h

theorem takeWhile_eq_take {l : List α} :
    l.takeWhile p = l.take (l.takeWhile p).length := by
  induction l with
  | nil => simp
  | cons a t ih =>
    by_cases ha : p a
    · rw [List.takeWhile_cons_of_pos ha]
      simpa using ih
    · rw [List.takeWhile_cons_of_neg ha]
      simp

theorem takeWhile_next_fails {l : List α} {x : α}
    (h : l.get? (l.takeWhile p).length = some x) : ¬ p x := by
  induction l with
  | nil => simp at h
  | cons a t ih =>
    by_cases ha : p a
    · rw [List.takeWhile_cons_of_pos ha] at h
      exact ih (by simpa using h)
    · rw [List.takeWhile_cons_of_neg ha] at h
      simp only [List.length_nil, List.get?] at h
      cases h
      exact fun hc => ha hc

theorem takeWhile_ne_nil_of_pos {l : List α} {k : Nat} (hk : k < l.length)
    (h : p (l.get ⟨k, hk⟩)) : (l.drop k).takeWhile p ≠ [] := by
  have hd : (l.drop k).get? 0 = some (l.get ⟨k, hk⟩) := by
    rw [List.get?_drop]
    simp [List.get?_eq_get hk]
  cases hdrop : l.drop k with
  | nil => rw [hdrop] at hd; simp at hd
  | cons b t =>
    rw [hdrop] at hd
    simp only [List.get?] at hd
    cases hd
    rw [List.takeWhile_cons_of_pos h]
    simp

end ListLemmas

section IdxMapLemmas

theorem idxMap_eq_none_iff {hs : List String} {c : String} :
    idxMap hs c = none ↔ c ∉ hs := by
  induction hs with
  | nil => simp [idxMap]
  | cons a t ih =>
    simp only [idxMap]
    cases h : idxMap t c with
    | some i =>
      have : c ∈ t := by
        by_contra hc
        rw [ih.mpr hc] at h
        cases h
      simp [this]
    | none =>
      have hct : c ∉ t := ih.mp h
      by_cases hac : a = c
      · subst hac
        simp
      · simp [hac, hct, Ne.symm hac]

theorem idxMap_get_self {hs : List String} (hnd : hs.Nodup) :
    ∀ (i : Nat) (h : i < hs.length), idxMap hs (hs.get ⟨i, h⟩) = some i := by
  induction hs with
  | nil => intro i h; simp at h
  | cons a t ih =>
    rcases List.nodup_cons.mp hnd with ⟨ha, ht⟩
    intro i h
    cases i with
    | zero =>
      have hn : idxMap t a = none := idxMap_eq_none_iff.mpr ha
      simp [idxMap, hn]
    | succ i' =>
      have h' : i' < t.length := Nat.lt_of_succ_lt_succ h
      have hidx := ih ht i' h'
      rw [List.get_eq_getElem] at hidx
      simp [idxMap, hidx]

theorem sortKey_get_self {hs : List String} (hnd : hs.Nodup)
    (i : Nat) (h : i < hs.length) : sortKey hs (hs.get ⟨i, h⟩) = i := by
  unfold sortKey
  rw [idxMap_get_self hnd i h]
  rfl

theorem insertByKey_of_le {key : String → Nat} {x : String} {l : List String}
    (h : ∀ y ∈ l, key x ≤ key y) : insertByKey key x l = x :: l := by
  cases l with
  | nil => rfl
  | cons y ys =>
    unfold insertByKey
    rw [if_pos (h y (List.mem_cons_self y ys))]

theorem sortByKey_eq_self {key : String → Nat} {l : List String}
    (h : l.Pairwise (fun a b => key a ≤ key b)) : sortByKey key l = l := by
  induction l with
  | nil => rfl
  | cons x xs ih =>
    rcases List.pairwise_cons.mp h with ⟨hx, hxs⟩
    unfold sortByKey
    rw [ih hxs, insertByKey_of_le hx]

theorem keywordCols_eq_filter {hs : List String} (hnd : hs.Nodup) :
    keywordCols hs = specKeywordCols hs := by
  unfold keywordCols specKeywordCols
  apply sortByKey_eq_self
  have hp : hs.Pairwise (fun a b => sortKey hs a ≤ sortKey hs b) := by
    rw [List.pairwise_iff_get]
    intro i j hij
    rw [sortKey_get_self hnd i i.isLt, sortKey_get_self hnd j j.isLt]
    exact Nat.le_of_lt hij
  exact hp.sublist (hs.filter_sublist)

end IdxMapLemmas

/-- C1: `get_next_prompt` returns exactly the earliest contiguous run of data
rows whose first row has empty `used`, in which every row shares the first
row's `topic` and has empty `used`, the run ending at the first subsequent
row violating either condition; an empty batch when no row has empty `used`;
and on rows `[A/A/B/A all unused]` it returns exactly the first two rows. -/
theorem getNextPromptBatch_contiguous_block :
    (∀ hs rows, (nextBatch hs rows = [] ↔ ∀ r ∈ rows, cellv hs r "used" ≠ "")) ∧
    (∀ hs rows k, firstUnused hs rows = some k →
      let target := cellv hs (rows.getD k []) "topic"
      nextBatch hs rows ≠ [] ∧
      nextBatch hs rows = (rows.drop k).take (nextBatch hs rows).length ∧
      (∀ r ∈ nextBatch hs rows,
        cellv hs r "used" = "" ∧ cellv hs r "topic" = target) ∧
      (∀ j x, j < k → rows.get? j = some x → cellv hs x "used" ≠ "") ∧
      (∀ x, (rows.drop k).get? (nextBatch hs rows).length = some x →
        ¬ (cellv hs x "used" = "" ∧ cellv hs x "topic" = target))) ∧
    (nextBatch ["rowId", "topic", "prompt", "title", "used"]
        [["1", "A", "p1", "", ""], ["2", "A", "p2", "", ""],
         ["3", "B", "p3", "", ""], ["4", "A", "p4", "", ""]] =
      [["1", "A", "p1", "", ""], ["2", "A", "p2", "", ""]]) := by
  refine ⟨?_, ?_, by decide⟩
  · intro hs rows
    constructor
    · intro hempty r hr hused
      have hpred : (fun r => cellv hs r "used" == "") r = true := by
        simpa using hused
      cases hfu : firstUnused hs rows with
      | none =>
        exact (findFirst_eq_none_iff.mp hfu r hr) hpred
      | some k =>
        rcases findFirst_eq_some hfu with ⟨⟨hk, hp⟩, _⟩
        have hne := takeWhile_ne_nil_of_pos (p := blockPred hs (cellv hs (rows.getD k []) "topic")) hk ?_
        · unfold nextBatch at hempty
          rw [hfu] at hempty
          exact hne hempty
        · have hused' : cellv hs (rows.get ⟨k, hk⟩) "used" = "" := by
            simpa using hp
          have hgd : rows.getD k [] = rows.get ⟨k, hk⟩ := by
            simp [List.getD_eq_get, hk]
          unfold blockPred
          rw [hused', hgd]
          simp
    · intro hall
      have : firstUnused hs rows = none := by
        apply findFirst_eq_none_iff.mpr
        intro x hx hp
        exact hall x hx (by simpa using hp)
      unfold nextBatch
      rw [this]
  · intro hs rows k hfu
    rcases findFirst_eq_some hfu with ⟨⟨hk, hp⟩, hmin⟩
    set target := cellv hs (rows.getD k []) "topic" with htarget
    have hgd : rows.getD k [] = rows.get ⟨k, hk⟩ := by
      simp [List.getD_eq_get, hk]
    have hbatch : nextBatch hs rows = (rows.drop k).takeWhile (blockPred hs target) := by
      unfold nextBatch
      rw [hfu]
    refine ⟨?_, ?_, ?_, ?_, ?_⟩
    · rw [hbatch]
      apply takeWhile_ne_nil_of_pos hk
      unfold blockPred
      have hused' : cellv hs (rows.get ⟨k, hk⟩) "used" = "" := by simpa using hp
      rw [hused', htarget, hgd]
      simp
    · rw [hbatch]
      exact takeWhile_eq_take
    · intro r hr
      rw [hbatch] at hr
      have := mem_takeWhile_pred hr
      unfold blockPred at this
      constructor
      · have := (Bool.and_eq_true _ _).mp this |>.1
        simpa using this
      · have := (Bool.and_eq_true _ _).mp this |>.2
        simpa using this
    · intro j x hj hget hused
      exact hmin j x hj hget (by simpa using hused)
    · intro x hget ⟨hu, ht⟩
      rw [hbatch] at hget
      apply takeWhile_next_fails hget
      unfold blockPred
      rw [hu, ht]
      simp

/-- Witness for `getNextPromptBatch_contiguous_block`: instantiates the
hypothesis-bearing middle conjunct at a concrete two-topic table. -/
theorem getNextPromptBatch_contiguous_block_witness :
    let hs := ["rowId", "topic", "prompt", "title", "used"]
    let rows := [["1", "A", "p1", "", ""], ["2", "A", "p2", "", ""],
                 ["3", "B", "p3", "", ""], ["4", "A", "p4", "", ""]]
    let target := cellv hs (rows.getD 0 []) "topic"
    nextBatch hs rows ≠ [] ∧
    nextBatch hs rows = (rows.drop 0).take (nextBatch hs rows).length ∧
    (∀ r ∈ nextBatch hs rows,
      cellv hs r "used" = "" ∧ cellv hs r "topic" = target) ∧
    (∀ j x, j < 0 → rows.get? j = some x → cellv hs x "used" ≠ "") ∧
    (∀ x, (rows.drop 0).get? (nextBatch hs rows).length = some x →
      ¬ (cellv hs x "used" = "" ∧ cellv hs x "topic" = target)) :=
  getNextPromptBatch_contiguous_block.2.1
    ["rowId", "topic", "prompt", "title", "used"]
    [["1", "A", "p1", "", ""], ["2", "A", "p2", "", ""],
     ["3", "B", "p3", "", ""], ["4", "A", "p4", "", ""]] 0 (by decide)

/-- C2: for every batch row, the derived `title` equals the stored title
when non-empty and otherwise the trimmed first 70 characters of the topic
(or prompt when the topic is empty); the derived `keywords` equal the
deduplicated non-empty keyword-column values in header order, extended from
the normalised prompt tokens only when fewer than 10 were found, and are at
most 10 long. -/
theorem batch_row_title_and_keywords :
    ∀ hs r, hs.Nodup →
      deriveTitle hs r = specTitle hs r ∧
      deriveKeywords hs r = specKeywords hs r ∧
      (deriveKeywords hs r).length ≤ 10 := by
  intro hs r hnd
  refine ⟨?_, ?_, ?_⟩
  · unfold deriveTitle specTitle pyOr
    by_cases h1 : cellv hs r "title" = "" <;>
      by_cases h2 : cellv hs r "topic" = "" <;> simp [h1, h2]
  · have hbase : collectColKws hs r =
        (specKeywordCols hs).foldl
          (fun kws kc =>
            let v := cellv hs r kc
            if v ≠ "" ∧ v ∉ kws then kws ++ [v] else kws) [] := by
      unfold collectColKws
      rw [keywordCols_eq_filter hnd]
    unfold deriveKeywords specKeywords
    rw [← hbase]
    by_cases hp : cellv hs r "prompt" = "" <;>
      by_cases hl : (collectColKws hs r).length < 10 <;>
        simp [hp, hl, pySplitWs, fillFromPrompt, wsSplitAux]
  · unfold deriveKeywords
    simp only [List.length_take]
    omega

/-- Witness for `batch_row_title_and_keywords` at a concrete header and
row. -/
theorem batch_row_title_and_keywords_witness :
    deriveTitle ["rowId", "topic", "prompt", "title", "used", "keyword1"]
        ["1", " cats ", "a cute cat.", "", "", "kw"] =
      specTitle ["rowId", "topic", "prompt", "title", "used", "keyword1"]
        ["1", " cats ", "a cute cat.", "", "", "kw"] ∧
    deriveKeywords ["rowId", "topic", "prompt", "title", "used", "keyword1"]
        ["1", " cats ", "a cute cat.", "", "", "kw"] =
      specKeywords ["rowId", "topic", "prompt", "title", "used", "keyword1"]
        ["1", " cats ", "a cute cat.", "", "", "kw"] ∧
    (deriveKeywords ["rowId", "topic", "prompt", "title", "used", "keyword1"]
        ["1", " cats ", "a cute cat.", "", "", "kw"]).length ≤ 10 :=
  batch_row_title_and_keywords
    ["rowId", "topic", "prompt", "title", "used", "keyword1"]
    ["1", " cats ", "a cute cat.", "", "", "kw"] (by decide)

theorem prune_length_le (w now : ℚ) (reqs : List ℚ) :
    (prune w now reqs).length ≤ reqs.length :=
  List.length_filter_le _ _

theorem prune_mem_le {w now : ℚ} {reqs : List ℚ}
    (hall : ∀ t ∈ reqs, t ≤ now) : ∀ t ∈ prune w now reqs, t ≤ now := by
  intro t ht
  exact hall t (List.mem_of_mem_filter ht)

theorem windowCount_le_length (w s : ℚ) (reqs : List ℚ) :
    windowCount w s reqs ≤ reqs.length :=
  List.length_filter_le _ _

/-- C3: along any `acquire` execution, if the request log held at most
`max_requests` timestamps with the clock past all of them, then after an
admission the log still holds at most `max_requests` timestamps — hence no
trailing `window`-second interval ever sees more than `max_requests`
admitted calls, including the one ending at the admission instant with the
newly admitted call; and when the pruned count is at the budget the caller
retries at the clock advanced by `window - (now - oldest) + 1` seconds. -/
theorem rate_limiter_window_bound :
    (∀ (maxReq : Nat) (w : ℚ) (fuel : Nat) (reqs : List ℚ) (now : ℚ)
        (reqs' : List ℚ) (now' : ℚ),
      0 < maxReq →
      reqs.length ≤ maxReq →
      (∀ t ∈ reqs, t ≤ now) →
      acquire maxReq w fuel reqs now = some (reqs', now') →
        reqs'.length ≤ maxReq ∧
        (∀ s, windowCount w s reqs' ≤ maxReq) ∧
        windowCount w now' reqs' ≤ maxReq ∧
        now ≤ now' ∧ (∀ t ∈ reqs', t ≤ now')) ∧
    (∀ (maxReq : Nat) (w : ℚ) (fuel : Nat) (reqs : List ℚ) (now : ℚ),
      maxReq ≤ (prune w now reqs).length →
      acquire maxReq w (fuel + 1) reqs now =
        acquire maxReq w fuel (prune w now reqs)
          (now + (w - (now - (prune w now reqs).headD 0) + 1))) := by
  constructor
  · intro maxReq w fuel
    induction fuel with
    | zero => intro reqs now reqs' now' _ _ _ h; simp [acquire] at h
    | succ f ih =>
      intro reqs now reqs' now' hmax hlen hall h
      rw [acquire] at h
      by_cases hfull : maxReq ≤ (prune w now reqs).length
      · rw [if_pos hfull] at h
        have hplen : (prune w now reqs).length ≤ maxReq :=
          le_trans (prune_length_le w now reqs) hlen
        have hwait : now ≤ now + waitTime w now (prune w now reqs) := by
          have hne : prune w now reqs ≠ [] := by
            intro hnil
            rw [hnil] at hfull
            simp at hfull
            omega
          have hhead : (prune w now reqs).headD 0 ∈ prune w now reqs := by
            cases hp : prune w now reqs with
            | nil => exact absurd hp hne
            | cons a l => simp [hp]
          have hlt : now - (prune w now reqs).headD 0 < w := by
            have := List.of_mem_filter hhead
            simpa using this
          unfold waitTime
          nlinarith [hlt]
        rcases ih (prune w now reqs) (now + waitTime w now (prune w now reqs))
            reqs' now' hmax hplen
            (fun t ht => le_trans (prune_mem_le hall t ht) hwait) h with
          ⟨h1, h2, h3, h4, h5⟩
        exact ⟨h1, h2, h3, le_trans hwait h4, h5⟩
      · rw [if_neg hfull] at h
        have hplen : (prune w now reqs).length < maxReq := Nat.lt_of_not_le hfull
        cases h
        have hlen' : ((prune w now reqs) ++ [now]).length ≤ maxReq := by
          simp only [List.length_append, List.length_cons, List.length_nil]
          omega
        refine ⟨hlen', fun s => le_trans (windowCount_le_length w s _) hlen',
          le_trans (windowCount_le_length w now _) hlen', le_refl now, ?_⟩
        intro t ht
        rcases List.mem_append.mp ht with h' | h'
        · exact prune_mem_le hall t h'
        · simp at h'
          exact le_of_eq h'
  · intro maxReq w fuel reqs now hfull
    rw [acquire, if_pos hfull]
    rfl

/-- Witness for `rate_limiter_window_bound`: a concrete execution on the
empty request log admitted immediately. -/
theorem rate_limiter_window_bound_witness :
    acquire 1 100 1 ([] : List ℚ) 0 = some ([(0 : ℚ)], 0) ∧
    ([(0 : ℚ)].length ≤ 1 ∧
      (∀ s, windowCount 100 s [(0 : ℚ)] ≤ 1) ∧
      windowCount 100 (0 : ℚ) [(0 : ℚ)] ≤ 1 ∧
      (0 : ℚ) ≤ 0 ∧ (∀ t ∈ [(0 : ℚ)], t ≤ (0 : ℚ))) := by
  have hrun : acquire 1 100 1 ([] : List ℚ) 0 = some ([(0 : ℚ)], 0) := by
    rw [acquire]
    simp [prune]
  exact ⟨hrun, rate_limiter_window_bound.1 1 100 1 [] 0 [(0 : ℚ)] 0
    (by decide) (by simp) (by simp) hrun⟩

/-- C4: the claim says a row whose current `used` is already `LOCKED` is
skipped by `mark_prompt_locked` and receives no write — as the source's own
comment at line 499 intends.  The code evaluates `row_data.get("used")` on
a dict that has no `"used"` key (lines 192-199), so the skip never fires:
here physical row 2, whose `used` is `"LOCKED"`, still receives the write
`prompts!D2:E2`. -/
theorem lock_overwrites_already_locked_row :
    lockPlan ["rowId", "topic", "prompt", "used", "log_id"]
        [["1", "A", "p1", "LOCKED", "old"], ["2", "A", "p2", "", ""]]
        2 "L1" "T" =
      .ok [⟨"prompts!D2:E2", [["LOCKED", "L1"]]⟩,
           ⟨"prompts!D3:E3", [["LOCKED", "L1"]]⟩] := by
  decide

/-- Counterexample to C5: for rowId 99, absent from the table, the handler
responds 500 (the catch-all at src/main.py lines 528-530 swallows the
internal `HTTPException(404)`), not 404; and for rowId 1, whose row has
`used="LOCKED"` (hence not "currently unused" in the claim's empty-`used`
sense), no `NotFoundError` is raised at all — the lock succeeds. -/
theorem lock_not_found_counterexample :
    (lockPlan ["rowId", "topic", "prompt", "used", "log_id"]
        [["1", "A", "p1", "LOCKED", "old"], ["2", "A", "p2", "", ""]]
        99 "L1" "T").status = some 500 ∧
    ¬ (lockPlan ["rowId", "topic", "prompt", "used", "log_id"]
        [["1", "A", "p1", "LOCKED", "old"], ["2", "A", "p2", "", ""]]
        99 "L1" "T").status = some 404 ∧
    lockPlan ["rowId", "topic", "prompt", "used", "log_id"]
        [["1", "A", "p1", "LOCKED", "old"], ["2", "A", "p2", "", ""]]
        1 "L1" "T" =
      .ok [⟨"prompts!D2:E2", [["LOCKED", "L1"]]⟩,
           ⟨"prompts!D3:E3", [["LOCKED", "L1"]]⟩] := by
  decide

/-- C5 (amended): a rowId absent from every not-yet-`"yes"` group makes
`mark_prompt_locked` fail with HTTP 500 carrying the stringified internal
404 (`"404: rowId not found in unused rows"`); a rowId present in some
group (rows with `used` ≠ `"yes"`, topic non-empty) raises no
`NotFoundError` — the handler reaches the update-building step. -/
theorem lock_not_found_behaviour :
    ∀ (hs : List String) (dataRows : List (List String)) (rowId : Int)
      (log_id now : String) (u : List (String × List RowData)),
      metaRequiredOk hs = true →
      unusedByTopic hs dataRows = some u →
      ((∀ p ∈ u, ∀ rd ∈ p.2, rd.rowId ≠ rowId) →
        lockPlan hs dataRows rowId log_id now =
          .httpError 500 "404: rowId not found in unused rows") ∧
      ((∃ p ∈ u, ∃ rd ∈ p.2, rd.rowId = rowId) →
        ((idxMap hs "used").isSome && (idxMap hs "log_id").isSome) = true →
        ∃ ups, lockPlan hs dataRows rowId log_id now = .ok ups) := by
  intro hs dataRows rowId log_id now u hmeta hu
  constructor
  · intro hnone
    have hfind : u.find? (fun p => p.2.any (fun rd => rd.rowId == rowId)) = none := by
      apply List.find?_eq_none.mpr
      intro p hp
      simp only [List.any_eq_true, beq_iff_eq, Bool.not_eq_true, not_exists]
      intro rd
      simp only [not_and]
      intro hrd
      exact hnone p hp rd hrd
    have hinner : lockPlanInner hs dataRows rowId log_id now =
        .httpError 404 "rowId not found in unused rows" := by
      unfold lockPlanInner
      rw [if_pos hmeta]
      simp only [hu, hfind]
    unfold lockPlan
    rw [hinner]
    decide
  · intro hsome hcols
    have hex : ∃ p ∈ u, (fun p : String × List RowData =>
        p.2.any (fun rd => rd.rowId == rowId)) p = true := by
      rcases hsome with ⟨p, hp, rd, hrd, hrid⟩
      exact ⟨p, hp, by simp only [List.any_eq_true, beq_iff_eq]; exact ⟨rd, hrd, hrid⟩⟩
    have hisSome : (u.find? (fun p => p.2.any (fun rd => rd.rowId == rowId))).isSome := by
      rw [List.find?_isSome]
      exact hex
    rcases Option.isSome_iff_exists.mp hisSome with ⟨q, hq⟩
    obtain ⟨t, topicRows⟩ := q
    refine ⟨lockUpdates hs topicRows log_id now, ?_⟩
    have hinner : lockPlanInner hs dataRows rowId log_id now =
        .ok (lockUpdates hs topicRows log_id now) := by
      unfold lockPlanInner
      rw [if_pos hmeta]
      simp only [hu, hq]
      rw [if_pos hcols]
    unfold lockPlan
    rw [hinner]

/-- Witness for `lock_not_found_behaviour` at a concrete table. -/
theorem lock_not_found_behaviour_witness :
    ((∀ p ∈ [("A",
        [(⟨2, 1, "A", "p1", "", ["1", "A", "p1", "LOCKED", "old"]⟩ : RowData),
         (⟨3, 2, "A", "p2", "", ["2", "A", "p2", "", ""]⟩ : RowData)])],
        ∀ rd ∈ p.2, rd.rowId ≠ (99 : Int)) →
      lockPlan ["rowId", "topic", "prompt", "used", "log_id"]
          [["1", "A", "p1", "LOCKED", "old"], ["2", "A", "p2", "", ""]]
          99 "L1" "T" =
        .httpError 500 "404: rowId not found in unused rows") ∧
    ((∃ p ∈ [("A",
        [(⟨2, 1, "A", "p1", "", ["1", "A", "p1", "LOCKED", "old"]⟩ : RowData),
         (⟨3, 2, "A", "p2", "", ["2", "A", "p2", "", ""]⟩ : RowData)])],
        ∃ rd ∈ p.2, rd.rowId = (99 : Int)) →
      ((idxMap ["rowId", "topic", "prompt", "used", "log_id"] "used").isSome &&
        (idxMap ["rowId", "topic", "prompt", "used", "log_id"] "log_id").isSome) = true →
      ∃ ups, lockPlan ["rowId", "topic", "prompt", "used", "log_id"]
          [["1", "A", "p1", "LOCKED", "old"], ["2", "A", "p2", "", ""]]
          99 "L1" "T" = .ok ups) :=
  lock_not_found_behaviour ["rowId", "topic", "prompt", "used", "log_id"]
    [["1", "A", "p1", "LOCKED", "old"], ["2", "A", "p2", "", ""]]
    99 "L1" "T"
    [("A",
      [⟨2, 1, "A", "p1", "", ["1", "A", "p1", "LOCKED", "old"]⟩,
       ⟨3, 2, "A", "p2", "", ["2", "A", "p2", "", ""]⟩])]
    (by decide) (by decide)

/-- Counterexample to C6: on a metadata cache miss, `get_sheet_metadata`
issues two remote calls (header read, then sheet-properties read) after a
single acquire — the sheet-properties read is not immediately preceded by
an acquire and the acquire/remote counts differ. -/
theorem acquire_per_remote_counterexample :
    ¬ oneAcquirePerRemote (getSheetMetadataTrace false) := by
  decide

/-- C6 (amended): in every operation, every remote call is preceded by at
least one earlier acquire in the same handler, and each batched write or
append is immediately preceded by its own acquire; but acquires and remote
calls are not one-to-one — `get_sheet_metadata` makes its two reads under
a single acquire (2 remote calls, 1 acquire). -/
theorem acquire_gating_of_remote_calls :
    (∀ mc uc : Bool,
      acquireSomewhereBefore (getSheetMetadataTrace mc) ∧
      acquireSomewhereBefore (getUnusedRowsTrace uc mc) ∧
      acquireSomewhereBefore (getNextPromptTrace mc)) ∧
    (∀ mc u : Bool,
      acquireSomewhereBefore (lockTrace mc u) ∧
      writeImmediatelyAfterAcquire (lockTrace mc u)) ∧
    (∀ u : Bool,
      acquireSomewhereBefore (clearTrace u) ∧
      writeImmediatelyAfterAcquire (clearTrace u) ∧
      acquireSomewhereBefore (markUsedTrace u) ∧
      writeImmediatelyAfterAcquire (markUsedTrace u) ∧
      acquireSomewhereBefore (insertTrace u) ∧
      writeImmediatelyAfterAcquire (insertTrace u)) ∧
    ((getSheetMetadataTrace false).filter Ev.isRemote).length = 2 ∧
    ((getSheetMetadataTrace false).filter Ev.isAcq).length = 1 := by
  refine ⟨fun mc uc => ?_, fun mc u => ?_, fun u => ?_, by decide, by decide⟩
  · cases mc <;> cases uc <;> exact (by decide)
  · cases mc <;> cases u <;> exact (by decide)
  · cases u <;> exact (by decide)

/-- Counterexample to C7: `mark_prompt_used` calls
`sheets_cache.invalidate()` at src/main.py line 666, AFTER its
`batchUpdate` at line 661 — invalidation on the write path is not
restricted to before the write. -/
theorem invalidation_after_write_counterexample :
    ¬ noInvalidationAfterWrite (markUsedTrace true) := by
  decide

/-- C7 (amended): every write endpoint invalidates the cache before any of
its remote calls AND, whenever it actually issues its remote write, it
invalidates the cache again after that write (src/main.py lines 525, 601,
666, 769). -/
theorem invalidation_surrounds_writes :
    (∀ mc u : Bool,
      invalidationBeforeRemote (lockTrace mc u) ∧
      invalidationAfterWrite (lockTrace mc u)) ∧
    (∀ u : Bool,
      invalidationBeforeRemote (clearTrace u) ∧
      invalidationAfterWrite (clearTrace u) ∧
      invalidationBeforeRemote (markUsedTrace u) ∧
      invalidationAfterWrite (markUsedTrace u) ∧
      invalidationBeforeRemote (insertTrace u) ∧
      invalidationAfterWrite (insertTrace u)) := by
  refine ⟨fun mc u => ?_, fun u => ?_⟩
  · cases mc <;> cases u <;> exact (by decide)
  · cases u <;> exact (by decide)

section UpdateShapeLemmas

/-- Every update emitted by `lockUpdates` targets the `used..timestamp`
(or `used..log_id`) range of some row of the topic group, with the column
letters computed by `col_idx_to_a1`. -/
theorem lockUpdates_shape (hs : List String) (topicRows : List RowData)
    (log_id now : String) (upd : A1Update)
    (hmem : upd ∈ lockUpdates hs topicRows log_id now) :
    ∃ rd ∈ topicRows,
      upd.range =
        SHEET_NAME ++ "!" ++ col_idx_to_a1 ((idxMap hs "used").getD 0) ++
          toString rd.row_idx ++ ":" ++
          (((idxMap hs "timestamp").map col_idx_to_a1).getD
            (col_idx_to_a1 ((idxMap hs "log_id").getD 0))) ++
          toString rd.row_idx ∧
      (upd.values = [["LOCKED", log_id, now]] ∨
        upd.values = [["LOCKED", log_id]]) := by
  unfold lockUpdates at hmem
  rcases List.mem_filterMap.mp hmem with ⟨rd, hrd, hf⟩
  refine ⟨rd, hrd, ?_⟩
  simp only [RowData.usedField, Option.getD] at hf
  rw [if_neg (by decide : ¬ pyUpper (pyStrip "") = "LOCKED")] at hf
  cases hts : idxMap hs "timestamp" with
  | none =>
    rw [hts] at hf
    simp only [Option.map] at hf
    cases hf
    simp [hts, Option.map, Option.getD]
  | some tc =>
    rw [hts] at hf
    simp only [Option.map] at hf
    cases hf
    simp [hts, Option.map, Option.getD]

/-- Every update emitted by `markUsedUpdates` is one contiguous
`used..timestamp` range for some physical row `j + 2`, with the three
values `["yes", log_id, now]` and `col_idx_to_a1` column letters. -/
theorem markUsedUpdates_shape (hs : List String)
    (rowIdValues : List (List String)) (rowIds : List Int)
    (log_id now : String) (upd : A1Update)
    (hmem : upd ∈ markUsedUpdates hs rowIdValues rowIds log_id now) :
    ∃ j,
      upd.range =
        SHEET_NAME ++ "!" ++ col_idx_to_a1 ((idxMap hs "used").getD 0) ++
          toString (j + 2) ++ ":" ++
          col_idx_to_a1 ((idxMap hs "timestamp").getD 0) ++ toString (j + 2) ∧
      upd.values = [["yes", log_id, now]] := by
  unfold markUsedUpdates at hmem
  rcases List.mem_filterMap.mp hmem with ⟨p, _, hf⟩
  refine ⟨p.1, ?_⟩
  split at hf
  · cases hf
  · split at hf
    · cases hf
    · split at hf
      · cases hf
        exact ⟨rfl, rfl⟩
      · cases hf

/-- Every update emitted by `clearUpdates` is a single-cell blanking write
addressed with `clearColLetter` at the position of one of the `used`,
`log_id`, `timestamp` columns. -/
theorem clearUpdates_shape (hs : List String) (values : List (List String))
    (targetTopic : String) (upd : A1Update)
    (hmem : upd ∈ clearUpdates hs values targetTopic) :
    ∃ (ci : Nat) (i : Nat),
      upd.range = SHEET_NAME ++ "!" ++ clearColLetter ci ++ toString i ∧
      upd.values = [[""]] ∧
      (idxMap hs "used" = some ci ∨ idxMap hs "log_id" = some ci ∨
        idxMap hs "timestamp" = some ci) := by
  unfold clearUpdates at hmem
  rcases List.mem_join.mp hmem with ⟨l, hl, hupd⟩
  rcases List.mem_map.mp hl with ⟨p, _, rfl⟩
  by_cases h1 : p.2.length ≤ (idxMap hs "topic").getD 0
  · rw [if_pos h1] at hupd
    cases hupd
  · rw [if_neg h1] at hupd
    by_cases h2 : p.2.getD ((idxMap hs "topic").getD 0) "" = targetTopic ∧
      (pyUpper (pyStrip (if (idxMap hs "used").getD 0 < p.2.length then
          p.2.getD ((idxMap hs "used").getD 0) "" else "")) = "" ∨
        pyUpper (pyStrip (if (idxMap hs "used").getD 0 < p.2.length then
          p.2.getD ((idxMap hs "used").getD 0) "" else "")) = "LOCKED" ∨
        pyUpper (pyStrip (if (idxMap hs "used").getD 0 < p.2.length then
          p.2.getD ((idxMap hs "used").getD 0) "" else "")) = "FAILED")
    · rw [if_pos h2] at hupd
      rcases List.mem_filterMap.mp hupd with ⟨col, hcol, hfc⟩
      cases hci : idxMap hs col with
      | none => rw [hci] at hfc; cases hfc
      | some ci =>
        rw [hci] at hfc
        simp only [Option.map] at hfc
        cases hfc
        refine ⟨ci, p.1 + 2, rfl, rfl, ?_⟩
        simp only [List.mem_cons, List.not_mem_nil, or_false] at hcol
        rcases hcol with rfl | rfl | rfl
        · exact Or.inl hci
        · exact Or.inr (Or.inl hci)
        · exact Or.inr (Or.inr hci)
    · rw [if_neg h2] at hupd
      cases hupd

/-- Pointwise semantics of `applyRowRangeWrite`. -/
theorem applyRowRangeWrite_getD (startCol : Nat) (vals row : List String)
    (c : Nat) (hc : c < row.length) :
    (applyRowRangeWrite startCol vals row).getD c "" =
      if startCol ≤ c ∧ c < startCol + vals.length then
        vals.getD (c - startCol) ""
      else row.getD c "" := by
  unfold applyRowRangeWrite
  simp only [List.getD_eq_getElem?_getD, List.getElem?_map, List.getElem?_enum,
    List.getElem?_eq_getElem hc, Option.map_some', Option.getD_some]

/-- `applyRowRangeWrite` preserves the row width. -/
theorem applyRowRangeWrite_length (startCol : Nat) (vals row : List String) :
    (applyRowRangeWrite startCol vals row).length = row.length := by
  unfold applyRowRangeWrite
  rw [List.length_map, List.enum_length]

end UpdateShapeLemmas

/-- Counterexample to C8: `clear_prompt_mark` does NOT use the base-26
multi-letter encoding — it addresses cells with `chr(ord('A') + idx)`
(src/main.py line 589).  At column index 26 this produces `"["` instead of
`"AA"`: in a 27-column table whose `used` column sits at index 26, the
emitted clear write targets the malformed range `prompts![2`. -/
theorem clear_single_letter_counterexample :
    clearColLetter 26 ≠ col_idx_to_a1 26 ∧
    col_idx_to_a1 26 = "AA" ∧
    clearColLetter 26 = "[" ∧
    (clearUpdates
        ["rowId", "topic", "prompt", "title", "log_id", "timestamp",
         "c06", "c07", "c08", "c09", "c10", "c11", "c12", "c13", "c14",
         "c15", "c16", "c17", "c18", "c19", "c20", "c21", "c22", "c23",
         "c24", "c25", "used"]
        [["1", "A"]] "A").head? =
      some ⟨"prompts![2", [[""]]⟩ := by
  decide

/-- C8 (amended): `col_idx_to_a1` is the bijective base-26 encoding
(0→A, 25→Z, 26→AA, 701→ZZ) and the `lock` and `markUsed` transition
writes address their ranges with it; `clear`, however, addresses its cells
with the single-character encoding `chr(ord('A')+idx)`, which agrees with
base-26 exactly on indices 0..25 and breaks beyond. -/
theorem transition_write_column_letters :
    (col_idx_to_a1 0 = "A" ∧ col_idx_to_a1 25 = "Z" ∧
      col_idx_to_a1 26 = "AA" ∧ col_idx_to_a1 701 = "ZZ") ∧
    (∀ i, i < 26 → clearColLetter i = col_idx_to_a1 i) ∧
    clearColLetter 26 ≠ col_idx_to_a1 26 ∧
    (∀ (hs : List String) (topicRows : List RowData) (log_id now : String)
        (upd : A1Update), upd ∈ lockUpdates hs topicRows log_id now →
      ∃ rd ∈ topicRows,
        upd.range =
          SHEET_NAME ++ "!" ++ col_idx_to_a1 ((idxMap hs "used").getD 0) ++
            toString rd.row_idx ++ ":" ++
            (((idxMap hs "timestamp").map col_idx_to_a1).getD
              (col_idx_to_a1 ((idxMap hs "log_id").getD 0))) ++
            toString rd.row_idx ∧
        (upd.values = [["LOCKED", log_id, now]] ∨
          upd.values = [["LOCKED", log_id]])) ∧
    (∀ (hs : List String) (rowIdValues : List (List String))
        (rowIds : List Int) (log_id now : String) (upd : A1Update),
      upd ∈ markUsedUpdates hs rowIdValues rowIds log_id now →
      ∃ j,
        upd.range =
          SHEET_NAME ++ "!" ++ col_idx_to_a1 ((idxMap hs "used").getD 0) ++
            toString (j + 2) ++ ":" ++
            col_idx_to_a1 ((idxMap hs "timestamp").getD 0) ++
            toString (j + 2) ∧
        upd.values = [["yes", log_id, now]]) ∧
    (∀ (hs : List String) (values : List (List String))
        (targetTopic : String) (upd : A1Update),
      upd ∈ clearUpdates hs values targetTopic →
      ∃ (ci : Nat) (i : Nat),
        upd.range = SHEET_NAME ++ "!" ++ clearColLetter ci ++ toString i ∧
        upd.values = [[""]] ∧
        (idxMap hs "used" = some ci ∨ idxMap hs "log_id" = some ci ∨
          idxMap hs "timestamp" = some ci)) :=
  ⟨by decide, by decide, by decide,
   lockUpdates_shape, markUsedUpdates_shape, clearUpdates_shape⟩

/-- Witness for `transition_write_column_letters`: its `markUsed`
component applied to a concrete one-row table. -/
theorem transition_write_column_letters_witness :
    ∃ j,
      A1Update.range ⟨"prompts!A2:E2", [["yes", "L", "T"]]⟩ =
        SHEET_NAME ++ "!" ++
          col_idx_to_a1 ((idxMap ["used", "colX", "log_id", "colY", "timestamp"]
            "used").getD 0) ++ toString (j + 2) ++ ":" ++
          col_idx_to_a1 ((idxMap ["used", "colX", "log_id", "colY", "timestamp"]
            "timestamp").getD 0) ++ toString (j + 2) ∧
      A1Update.values ⟨"prompts!A2:E2", [["yes", "L", "T"]]⟩ =
        [["yes", "L", "T"]] :=
  transition_write_column_letters.2.2.2.2.1
    ["used", "colX", "log_id", "colY", "timestamp"] [["7"]] [7] "L" "T"
    ⟨"prompts!A2:E2", [["yes", "L", "T"]]⟩ (by decide)

/-- Counterexample to C10: with header `[used, colX, log_id, colY,
timestamp]` (`used` at index 0, `timestamp` at index 4), `mark_prompt_used`
emits the single wide range `prompts!A2:E2` with only three values, and
applying that write leaves `colY` — whose index 3 lies strictly between
the `used` and `timestamp` columns — unchanged at its old value `"x3"`,
contradicting the claim that every such in-between column is overwritten. -/
theorem between_columns_not_overwritten :
    markUsedUpdates ["used", "colX", "log_id", "colY", "timestamp"]
        [["7"]] [7] "L" "T" =
      [⟨"prompts!A2:E2", [["yes", "L", "T"]]⟩] ∧
    applyRowRangeWrite 0 ["yes", "L", "T"] ["", "x1", "", "x3", ""] =
      ["yes", "L", "T", "x3", ""] ∧
    (applyRowRangeWrite 0 ["yes", "L", "T"] ["", "x1", "", "x3", ""]).getD 3 ""
      = "x3" := by
  decide

/-- C10 (amended): `markUsed` (and `lock` when a timestamp column exists)
issues one contiguous A1 range from the `used` column to the `timestamp`
column carrying exactly the three values `[state, log_id, timestamp]`;
under the store's range-write semantics the write sets the columns at
offsets 0, 1, 2 from `used` and leaves every other column unchanged — so
the intended cells are hit exactly when `log_id` and `timestamp` sit at
offsets 1 and 2, columns at offsets 1 and 2 are overwritten whatever their
names, and range columns at offset ≥ 3 (strictly between `used` and
`timestamp` included) are not written. -/
theorem mark_used_contiguous_range_write :
    (∀ (hs : List String) (rowIdValues : List (List String))
        (rowIds : List Int) (log_id now : String) (upd : A1Update),
      upd ∈ markUsedUpdates hs rowIdValues rowIds log_id now →
      ∃ j,
        upd.range =
          SHEET_NAME ++ "!" ++ col_idx_to_a1 ((idxMap hs "used").getD 0) ++
            toString (j + 2) ++ ":" ++
            col_idx_to_a1 ((idxMap hs "timestamp").getD 0) ++
            toString (j + 2) ∧
        upd.values = [["yes", log_id, now]]) ∧
    (∀ (startCol : Nat) (vals row : List String) (c : Nat), c < row.length →
      (applyRowRangeWrite startCol vals row).getD c "" =
        if startCol ≤ c ∧ c < startCol + vals.length then
          vals.getD (c - startCol) ""
        else row.getD c "") ∧
    (∀ (startCol : Nat) (vals row : List String),
      (applyRowRangeWrite startCol vals row).length = row.length) :=
  ⟨markUsedUpdates_shape, applyRowRangeWrite_getD, applyRowRangeWrite_length⟩

/-- Witness for `mark_used_contiguous_range_write`: the pointwise
write-semantics component at column 3 of a concrete five-cell row. -/
theorem mark_used_contiguous_range_write_witness :
    (applyRowRangeWrite 0 ["yes", "L", "T"] ["", "x1", "", "x3", ""]).getD 3 ""
      = if 0 ≤ 3 ∧ 3 < 0 + (["yes", "L", "T"] : List String).length then
          (["yes", "L", "T"] : List String).getD (3 - 0) ""
        else (["", "x1", "", "x3", ""] : List String).getD 3 "" :=
  mark_used_contiguous_range_write.2.1 0 ["yes", "L", "T"]
    ["", "x1", "", "x3", ""] 3 (by decide)

section SetCellsLemmas

theorem idxMap_some_get {hs : List String} {c : String} {i : Nat}
    (h : idxMap hs c = some i) :
    ∃ hlt : i < hs.length, hs.get ⟨i, hlt⟩ = c := by
  induction hs generalizing i with
  | nil => simp [idxMap] at h
  | cons a t ih =>
    simp only [idxMap] at h
    cases ht : idxMap t c with
    | some j =>
      rw [ht] at h
      cases h
      rcases ih ht with ⟨hlt, hget⟩
      exact ⟨Nat.succ_lt_succ hlt, by simpa using hget⟩
    | none =>
      rw [ht] at h
      by_cases hac : a = c
      · rw [if_pos hac] at h
        cases h
        exact ⟨Nat.succ_pos _, by simpa using hac⟩
      · rw [if_neg hac] at h
        cases h

theorem idxMap_inj {hs : List String} {c1 c2 : String} {i : Nat}
    (h1 : idxMap hs c1 = some i) (h2 : idxMap hs c2 = some i) : c1 = c2 := by
  rcases idxMap_some_get h1 with ⟨hl1, hg1⟩
  rcases idxMap_some_get h2 with ⟨_, hg2⟩
  rw [← hg1, ← hg2]

theorem idxMap_isSome_of_mem {hs : List String} {c : String} (h : c ∈ hs) :
    (idxMap hs c).isSome := by
  cases hm : idxMap hs c with
  | none => exact absurd (idxMap_eq_none_iff.mp hm) (by simpa using h)
  | some _ => rfl

theorem pos_ne_of_names_ne {hs : List String} {c1 c2 : String} {i1 i2 : Nat}
    (h1 : idxMap hs c1 = some i1) (h2 : idxMap hs c2 = some i2)
    (hne : c1 ≠ c2) : i1 ≠ i2 :=
  fun he => hne (idxMap_inj h1 (he ▸ h2))

theorem getD_set_ne (l : List String) (i j : Nat) (v : String) (hne : i ≠ j) :
    (l.set i v).getD j "" = l.getD j "" := by
  rw [List.getD_eq_getElem?_getD, List.getD_eq_getElem?_getD,
    List.getElem?_set_ne hne]

theorem getD_set_self (l : List String) (i : Nat) (v : String)
    (h : i < l.length) : (l.set i v).getD i "" = v := by
  rw [List.getD_eq_getElem?_getD, List.getElem?_set_self]
  · rfl
  · exact h

theorem setCells_length (r : List String) (pv : List (Nat × String)) :
    (setCells r pv).length = r.length := by
  induction pv generalizing r with
  | nil => rfl
  | cons p rest ih =>
    obtain ⟨pos, v⟩ := p
    rw [setCells, ih, List.length_set]

theorem setCells_getD_of_not_mem (r : List String) (pv : List (Nat × String))
    (q : Nat) (h : ∀ p ∈ pv, p.1 ≠ q) :
    (setCells r pv).getD q "" = r.getD q "" := by
  induction pv generalizing r with
  | nil => rfl
  | cons p rest ih =>
    obtain ⟨pos, v⟩ := p
    rw [setCells, ih _ (fun x hx => h x (List.mem_cons_of_mem _ hx))]
    exact getD_set_ne _ _ _ _ (h (pos, v) (List.mem_cons_self _ _))

theorem setCells_getD_of_mem (r : List String) (pv : List (Nat × String))
    (q : Nat) (v : String) (hmem : (q, v) ∈ pv)
    (hdist : pv.Pairwise (fun a b => a.1 ≠ b.1)) (hq : q < r.length) :
    (setCells r pv).getD q "" = v := by
  induction pv generalizing r with
  | nil => simp at hmem
  | cons p rest ih =>
    obtain ⟨pos, w⟩ := p
    rcases List.pairwise_cons.mp hdist with ⟨hhead, htail⟩
    rcases List.mem_cons.mp hmem with heq | hmem'
    · cases heq
      rw [setCells, setCells_getD_of_not_mem _ _ _
        (fun x hx => Ne.symm (hhead x hx))]
      exact getD_set_self _ _ _ hq
    · rw [setCells]
      exact ih _ hmem' htail (by rw [List.length_set]; exact hq)

theorem replicate_getD (n q : Nat) :
    (List.replicate n ("" : String)).getD q "" = "" := by
  rw [List.getD_eq_getElem?_getD, List.getElem?_replicate]
  split <;> rfl

end SetCellsLemmas

/-- Enumerating preserves pairwise relations on the elements. -/
theorem pairwise_enumFrom_snd {R : String → String → Prop} :
    ∀ {l : List String}, l.Pairwise R → ∀ n : Nat,
      (l.enumFrom n).Pairwise (fun a b => R a.2 b.2) := by
  intro l h
  induction h with
  | nil => intro n; simp
  | @cons x xs hx hxs ih =>
    intro n
    simp only [List.enumFrom]
    refine List.Pairwise.cons ?_ (ih (n + 1))
    intro b hb
    apply hx
    have hsnd : b.2 ∈ (xs.enumFrom (n + 1)).map Prod.snd :=
      List.mem_map_of_mem Prod.snd hb
    rwa [List.enumFrom_map_snd] at hsnd

/-- Counterexample to C9: with header keyword columns ordered
`keyword2` (index 7) before `keyword1` (index 8), `insert_prompts` places
the payload's `keyword1` value positionally into the column NAMED
`keyword2`, and the column named `keyword1` receives the payload's
`keyword2` value — not the identically-named payload field. -/
theorem insert_keyword_by_name_counterexample :
    idxMap ["rowId", "topic", "prompt", "title", "used", "log_id",
        "timestamp", "keyword2", "keyword1"] "keyword1" = some 8 ∧
    buildRowVals ["rowId", "topic", "prompt", "title", "used", "log_id",
        "timestamp", "keyword2", "keyword1"]
        { topic := "T", prompt := "P", title := "Ti",
          keyword1 := "K1", keyword2 := "K2" } 1 =
      ["1", "T", "P", "Ti", "", "", "", "K1", "K2"] ∧
    ¬ (buildRowVals ["rowId", "topic", "prompt", "title", "used", "log_id",
        "timestamp", "keyword2", "keyword1"]
        { topic := "T", prompt := "P", title := "Ti",
          keyword1 := "K1", keyword2 := "K2" } 1).getD 8 "" = "K1" := by
  decide

/-- C9 (amended): `insert_prompts` assigns payload keywords positionally:
for every input row, the i-th keyword-prefixed header column (in header
column order, i < 10) receives the i-th payload keyword value
(`keyword(i+1)`, stripped); keyword columns beyond the ten payload fields
are left empty; payload keywords beyond the table's keyword columns are
dropped.  When the header's keyword columns are named `keyword1..keywordN`
in that order this coincides with by-name placement. -/
theorem insert_keyword_positional :
    ∀ (hs : List String) (item : InsertRow) (next_id : Int),
      hs.Nodup → requiredInsertOk hs = true →
      (∀ (i : Nat) (hi : i < (keywordCols hs).length), i < 10 →
        (buildRowVals hs item next_id).getD
            ((idxMap hs ((keywordCols hs).get ⟨i, hi⟩)).getD 0) "" =
          (payloadKws item).getD i "") ∧
      (∀ (i : Nat) (hi : i < (keywordCols hs).length), 10 ≤ i →
        (buildRowVals hs item next_id).getD
            ((idxMap hs ((keywordCols hs).get ⟨i, hi⟩)).getD 0) "" = "") := by
  intro hs item next_id hnd hreq
  have hkcs : keywordCols hs = hs.filter keywordPred := keywordCols_eq_filter hnd
  have hkcsnd : (keywordCols hs).Nodup := by
    rw [hkcs]
    exact hnd.filter _
  have hpres : ∀ c ∈ ["rowId", "topic", "prompt", "title", "used", "log_id",
      "timestamp"], (idxMap hs c).isSome = true := by
    intro c hc
    exact List.all_eq_true.mp hreq c hc
  obtain ⟨pru, hu⟩ := Option.isSome_iff_exists.mp (hpres "used" (by simp))
  obtain ⟨prl, hl⟩ := Option.isSome_iff_exists.mp (hpres "log_id" (by simp))
  obtain ⟨prt, ht⟩ := Option.isSome_iff_exists.mp (hpres "timestamp" (by simp))
  obtain ⟨prr, hr⟩ := Option.isSome_iff_exists.mp (hpres "rowId" (by simp))
  obtain ⟨prtop, htop⟩ := Option.isSome_iff_exists.mp (hpres "topic" (by simp))
  obtain ⟨prp, hp⟩ := Option.isSome_iff_exists.mp (hpres "prompt" (by simp))
  obtain ⟨prti, hti⟩ := Option.isSome_iff_exists.mp (hpres "title" (by simp))
  have hmemkc : ∀ kc : String, kc ∈ keywordCols hs →
      kc ∈ hs ∧ keywordPred kc = true := by
    intro kc h1
    rw [hkcs] at h1
    exact ⟨List.mem_of_mem_filter h1, List.of_mem_filter h1⟩
  have hkpr : ∀ kc : String, keywordPred kc = true →
      ∀ (n : String) (pn pk : Nat), keywordPred n = false →
        idxMap hs n = some pn → idxMap hs kc = some pk → pn ≠ pk := by
    intro kc hkp n pn pk hnp hn hk
    apply pos_ne_of_names_ne hn hk
    intro he
    rw [← he, hnp] at hkp
    cases hkp
  have hmemtake : ∀ x ∈ (keywordCols hs).take 10, x ∈ hs := by
    intro x hx
    exact (hmemkc x ((List.take_sublist _ _).subset hx)).1
  have henumpw : (((keywordCols hs).take 10).enum).Pairwise
      (fun a b => (idxMap hs a.2).getD 0 ≠ (idxMap hs b.2).getD 0) := by
    have htknd : ((keywordCols hs).take 10).Nodup :=
      hkcsnd.sublist (List.take_sublist _ _)
    have hpw : ((keywordCols hs).take 10).Pairwise
        (fun a b => (idxMap hs a).getD 0 ≠ (idxMap hs b).getD 0) := by
      apply List.Pairwise.imp_of_mem ?_ htknd
      intro a b ha hb hab
      obtain ⟨pa, hpa⟩ := Option.isSome_iff_exists.mp
        (idxMap_isSome_of_mem (hmemtake a ha))
      obtain ⟨pb, hpb⟩ := Option.isSome_iff_exists.mp
        (idxMap_isSome_of_mem (hmemtake b hb))
      rw [hpa, hpb]
      simpa using pos_ne_of_names_ne hpa hpb hab
    have := pairwise_enumFrom_snd hpw 0
    simpa [List.enum] using this
  have hpwA : (((keywordCols hs).take 10).enum.map
      (fun p => ((idxMap hs p.2).getD 0, (payloadKws item).getD p.1 ""))).Pairwise
      (fun a b => a.1 ≠ b.1) :=
    List.Pairwise.map _ (fun a b hab => hab) henumpw
  constructor
  · intro i hi hlt10
    obtain ⟨hkchs, hkp⟩ := hmemkc _ (List.get_mem (keywordCols hs) i hi)
    obtain ⟨posk, hposk⟩ := Option.isSome_iff_exists.mp (idxMap_isSome_of_mem hkchs)
    obtain ⟨hklt, _⟩ := idxMap_some_get hposk
    rw [hposk]
    unfold buildRowVals
    simp only [htop, hp, hti, hu, hl, ht, hr, Option.isSome_some, if_true,
      Option.getD_some]
    rw [getD_set_ne _ _ _ _ (hkpr _ hkp "timestamp" _ _ (by decide) ht hposk)]
    rw [getD_set_ne _ _ _ _ (hkpr _ hkp "log_id" _ _ (by decide) hl hposk)]
    rw [getD_set_ne _ _ _ _ (hkpr _ hkp "used" _ _ (by decide) hu hposk)]
    have htake : i < ((keywordCols hs).take 10).length := by
      rw [List.length_take]
      exact lt_min hlt10 hi
    have henum : (i, (keywordCols hs).get ⟨i, hi⟩) ∈
        ((keywordCols hs).take 10).enum := by
      apply List.getElem?_mem
      rw [List.getElem?_enum, List.getElem?_eq_getElem htake]
      simp only [Option.map_some', Option.some.injEq, Prod.mk.injEq, true_and,
        List.get_eq_getElem]
      rw [List.getElem_take]
    apply setCells_getD_of_mem
    · refine List.mem_map.mpr ⟨(i, (keywordCols hs).get ⟨i, hi⟩), henum, ?_⟩
      have hposk' := hposk
      rw [List.get_eq_getElem] at hposk'
      simp [hposk, hposk']
    · exact hpwA
    · simp only [List.length_set, List.length_replicate]
      exact hklt
  · intro i hi hge10
    obtain ⟨hkchs, hkp⟩ := hmemkc _ (List.get_mem (keywordCols hs) i hi)
    obtain ⟨posk, hposk⟩ := Option.isSome_iff_exists.mp (idxMap_isSome_of_mem hkchs)
    rw [hposk]
    unfold buildRowVals
    simp only [htop, hp, hti, hu, hl, ht, hr, Option.isSome_some, if_true,
      Option.getD_some]
    rw [getD_set_ne _ _ _ _ (hkpr _ hkp "timestamp" _ _ (by decide) ht hposk)]
    rw [getD_set_ne _ _ _ _ (hkpr _ hkp "log_id" _ _ (by decide) hl hposk)]
    rw [getD_set_ne _ _ _ _ (hkpr _ hkp "used" _ _ (by decide) hu hposk)]
    rw [setCells_getD_of_not_mem]
    · rw [getD_set_ne _ _ _ _ (hkpr _ hkp "title" _ _ (by decide) hti hposk)]
      rw [getD_set_ne _ _ _ _ (hkpr _ hkp "prompt" _ _ (by decide) hp hposk)]
      rw [getD_set_ne _ _ _ _ (hkpr _ hkp "topic" _ _ (by decide) htop hposk)]
      rw [getD_set_ne _ _ _ _ (hkpr _ hkp "rowId" _ _ (by decide) hr hposk)]
      exact replicate_getD _ _
    · intro p hp'
      rcases List.mem_map.mp hp' with ⟨q, hq, rfl⟩
      have hq2 : q.2 ∈ (keywordCols hs).take 10 := by
        have hsnd := List.enum_map_snd ((keywordCols hs).take 10)
        rw [← hsnd]
        exact List.mem_map_of_mem Prod.snd hq
      obtain ⟨pq, hpq⟩ := Option.isSome_iff_exists.mp
        (idxMap_isSome_of_mem (hmemtake _ hq2))
      have hkne : q.2 ≠ (keywordCols hs).get ⟨i, hi⟩ := by
        intro he
        rw [he] at hq2
        rcases List.mem_iff_get.mp hq2 with ⟨⟨j, hj⟩, hjget⟩
        have hj10 : j < 10 := by
          have := hj
          rw [List.length_take] at this
          omega
        have hjlt : j < (keywordCols hs).length := by
          have := hj
          rw [List.length_take] at this
          omega
        have hgetj : ((keywordCols hs).take 10).get ⟨j, hj⟩ =
            (keywordCols hs).get ⟨j, hjlt⟩ := by
          simp [List.getElem_take]
        rw [hgetj] at hjget
        have := (List.Nodup.get_inj_iff hkcsnd).mp hjget
        have hji : j = i := congrArg Fin.val this
        omega
      simp only [hpq, Option.getD_some]
      exact pos_ne_of_names_ne hpq hposk hkne

/-- Witness for `insert_keyword_positional` at a concrete header and
payload row. -/
theorem insert_keyword_positional_witness :
    (buildRowVals ["rowId", "topic", "prompt", "title", "used", "log_id",
        "timestamp", "keyword1"]
        { topic := "T", prompt := "P", title := "Ti", keyword1 := "K" }
        5).getD
        ((idxMap ["rowId", "topic", "prompt", "title", "used", "log_id",
          "timestamp", "keyword1"]
          ((keywordCols ["rowId", "topic", "prompt", "title", "used",
            "log_id", "timestamp", "keyword1"]).get ⟨0, (by decide)⟩)).getD 0)
        "" =
      (payloadKws
        { topic := "T", prompt := "P", title := "Ti", keyword1 := "K" }).getD
        0 "" :=
  (insert_keyword_positional ["rowId", "topic", "prompt", "title", "used",
      "log_id", "timestamp", "keyword1"]
    { topic := "T", prompt := "P", title := "Ti", keyword1 := "K" } 5
    (by decide) (by decide)).1 0 (by decide) (by decide)
